import Mathlib

/-!
Verification development for the `jump` CLI (src/jump/jump.py): a tool that
discovers, starts, attaches to and kills jupyter servers on a remote host and
tunnels the chosen server's port to the local machine.

Python strings are modelled as `List Char`; Python listings as `List String`.
Machine-facing effects (ssh invocations, process spawns, prompts) are modelled
as explicit `Effect` traces; recoverable errors (`JumpException`, caught in
`main`) are distinguished from `AssertionError`-class invariant violations in
the `Err` type.
-/

/-- Error taxonomy of the program: `JumpException msg` is the recoverable
error class raised and caught at top level in `main`; `assertionError` models
a failed `assert` statement (an invariant violation, not caught). -/
inductive Err where
  | assertionError
  | jumpException (msg : String)
deriving DecidableEq

/-- `main` catches only `JumpException` (rendering it and exiting 1); an
`AssertionError` propagates.  From `main` in src/jump/jump.py. -/
def isRecoverable : Err → Bool
  | Err.jumpException _ => true
  | Err.assertionError => false

/-- Python whitespace for `str.strip` and the regex class `\s`
(ASCII range): space, tab, newline, carriage return, vertical tab, form feed. -/
def isPySpace (c : Char) : Bool :=
  c = ' ' || c = '\t' || c = '\n' || c = '\r' || c = '\x0b' || c = '\x0c'

/-- Python `str.strip()`: remove leading and trailing whitespace.  Implemented
as dropping the leading whitespace run, then the trailing one (via reverse). -/
def pyStrip (l : List Char) : List Char :=
  ((l.dropWhile isPySpace).reverse.dropWhile isPySpace).reverse

/-- `Remote.strip_talk` from src/jump/jump.py, as a pure function of the banner
pair `(pre, suf)` (the source's `self.talk[0]`, `self.talk[1]`):
strip surrounding whitespace, then remove `pre` once if nonempty and present at
the start, then remove `suf` once if nonempty and present at the end. -/
def strip_talk (pre suf o : List Char) : List Char :=
  let o1 := pyStrip o
  let o2 := if pre.length > 0 && pre.isPrefixOf o1 then o1.drop pre.length else o1
  if suf.length > 0 && suf.isSuffixOf o2 then o2.take (o2.length - suf.length) else o2

-- ### Environment-variable import (`Remote.run_with_shell`)

/-- Characters allowed in a key by the regex `[^\s=\(\)%]+=` of
`Remote.run_with_shell`: anything except whitespace, `=`, `(`, `)`, `%`. -/
def validKeyChar (c : Char) : Bool :=
  !isPySpace c && !(c = '=') && !(c = '(') && !(c = ')') && !(c = '%')

/-- `re.compile(r'[^\s=\(\)%]+=').match(line)`: an anchored match of one or
more valid key characters followed by `=`.  Because `=` is excluded from the
character class, greedy matching with backtracking succeeds exactly when the
maximal run of valid characters is nonempty and is followed by `=`. -/
def matchesEnvLine (line : List Char) : Bool :=
  !(line.takeWhile validKeyChar).isEmpty &&
    ((line.dropWhile validKeyChar).head? == some '=')

/-- Python `line.split('=', 1)` (for a line containing `=`): the text before
the first `=` and the text after it. -/
def splitEq1 (line : List Char) : List Char × List Char :=
  (line.takeWhile (fun c => !(c = '=')), (line.dropWhile (fun c => !(c = '='))).drop 1)

/-- One line of the `env` dump as processed by the dict comprehension in
`Remote.run_with_shell`: lines matching the regex contribute the binding
`(key, value)`; other lines are ignored. -/
def parseEnvLine (line : List Char) : Option (List Char × List Char) :=
  if matchesEnvLine line then some (splitEq1 line) else none

-- ### Environment registry (`Remote.get_conda_envs` / `Remote.get_mamba_envs`)

/-- `os.path.basename` for POSIX paths: the part after the last `/`. -/
def basename (p : String) : String :=
  String.mk ((p.data.reverse.takeWhile (fun c => !(c = '/'))).reverse)

/-- Assignment `d[k] = v` on a Python dict modelled as an insertion-ordered
association list: overwrite in place if the key is present, else append. -/
def dictUpsert (d : List (String × String)) (k v : String) : List (String × String) :=
  if d.any (fun kv => kv.1 == k) then
    d.map (fun kv => if kv.1 == k then (k, v) else kv)
  else d ++ [(k, v)]

/-- The dict comprehension `{os.path.basename(env): env for env in env_list}`. -/
def envDictOf (envList : List String) : List (String × String) :=
  envList.foldl (fun d e => dictUpsert d (basename e) e) []

/-- Shared core of `Remote.get_conda_envs` and `Remote.get_mamba_envs`:
key each listed path by its basename, then, if the manager's base installation
path occurs among the values, additionally bind the alias name `"base"` to it.
(`basePath` is `CONDA_EXE` minus `/bin/conda`, resp. `MAMBA_ROOT_PREFIX`.) -/
def envRegistry (envList : List String) (basePath : String) : List (String × String) :=
  let d := envDictOf envList
  if d.any (fun kv => kv.2 == basePath) then dictUpsert d "base" basePath else d

/-- `Remote.get_conda_envs`, as a function of the parsed JSON `envs` listing
and the conda base path. -/
def get_conda_envs (envList : List String) (basePath : String) : List (String × String) :=
  envRegistry envList basePath

/-- `Remote.get_mamba_envs`, as a function of the parsed JSON `envs` listing
and `MAMBA_ROOT_PREFIX`. -/
def get_mamba_envs (envList : List String) (basePath : String) : List (String × String) :=
  envRegistry envList basePath

-- ### New-server detection (`Remote.start_jupyter_server`, post-polling)

/-- `[i for i, s in enumerate(running) if s not in running_servers]`:
the indices of lines of the `after` listing that do not occur in `before`. -/
def newServerIndices (before after : List String) : List Nat :=
  (after.enum.filter (fun p => !(before.contains p.2))).map Prod.fst

/-- The tail of `Remote.start_jupyter_server` after its polling loop ends:
`assert len(new_servers) == 1` then `return running, new_servers[0]`.
A failed assert is the `assertionError` outcome. -/
def detectNewServer (before after : List String) : Except Err (List String × Nat) :=
  if (newServerIndices before after).length = 1 then
    Except.ok (after, (newServerIndices before after).headD 0)
  else Except.error Err.assertionError

/-- Following the claim's own phrasing, for comparison with the code:
"the set of listing lines present after but not before". -/
def newLineSet (before after : List String) : List String :=
  (after.filter (fun s => !(before.contains s))).dedup

-- ### Observable actions of the orchestration paths

/-- Observable side effects of the orchestration code.  Every call of
`user_input`/`input` is a `promptUser`; the pre-flight module check is an
`sshTest` of its command string; starting the remote jupyter process (either
via `subprocess.Popen(["ssh", ...])` or via plumbum `& BG`) is `spawnServer`;
`open_local` performs `sshTunnel` then `openBrowser`. -/
inductive Effect where
  | promptUser (question : String)
  | sshTest (cmd : String)
  | spawnServer
  | sshTunnel
  | openBrowser
deriving DecidableEq

/-- Whether an action reads from the user (a `user_input`/`input` call). -/
def Effect.isPrompt : Effect → Bool
  | Effect.promptUser _ => true
  | _ => false

/-- The pre-flight command string of `Remote.start_jupyter_server`:
`" && module load ".join([". /etc/profile"] + list(modules))`. -/
def loadCommand (modules : List String) : String :=
  String.intercalate " && module load " (". /etc/profile" :: modules)

/-- The action trace and outcome of `Remote.start_jupyter_server` up to and
including the spawn of the server process.  `profileOk` abstracts the exit
status of `. /etc/profile`; `moduleOk m` the exit status of `module load m`;
the `&&`-chained test command succeeds iff all of them do.  With modules, a
failing test raises `JumpException("Failed to load modules")` before the
server spawn; without modules the server is spawned directly. -/
def start_jupyter_server_trace (modules : List String) (profileOk : Bool)
    (moduleOk : String → Bool) : List Effect × Option Err :=
  if modules.isEmpty then ([Effect.spawnServer], none)
  else if profileOk && modules.all moduleOk then
    ([Effect.sshTest (loadCommand modules), Effect.spawnServer], none)
  else ([Effect.sshTest (loadCommand modules)],
        some (Err.jumpException "Failed to load modules"))

/-- The action trace and outcome of the `start` subcommand: run
`Remote.start_jupyter_server`, then (on success) `open_local`, which opens the
ssh tunnel and the browser. -/
def startCmdTrace (modules : List String) (profileOk : Bool)
    (moduleOk : String → Bool) : List Effect × Option Err :=
  match start_jupyter_server_trace modules profileOk moduleOk with
  | (t, some e) => (t, some e)
  | (t, none) => (t ++ [Effect.sshTunnel, Effect.openBrowser], none)

/-- The subcommands reachable from the group callback's dispatch. -/
inductive JumpCmd where
  | start
  | attach
deriving DecidableEq

/-- The dispatch at the end of `cli` when no subcommand was given:
`if len(running) == 0: ctx.invoke(start, lab=False) else: ctx.invoke(attach)`. -/
def cliAutoInvoke (running : List String) : JumpCmd :=
  if running.length = 0 then JumpCmd.start else JumpCmd.attach

-- ### Interactive selection (`user_input`, `attach`, `kill`)

/-- `user_input` from src/jump/jump.py with `type_conversion=int`, driven by a
finite script of answers.  `none` stands for an answer on which `int()` raises
(non-numeric); `some x` for one that converts to the integer `x`.  An answer
is returned when `is_valid` holds for it; otherwise the loop re-prompts with
the next answer.  An exhausted script (`[]`) means the loop is still
prompting: no value was ever returned. -/
def user_input (is_valid : Int → Bool) : List (Option Int) → Option Int
  | [] => none
  | a :: rest =>
    match a with
    | some x => if is_valid x then some x else user_input is_valid rest
    | none => user_input is_valid rest

/-- The `is_valid` lambda of `attach`: `1 <= x <= len(running)`. -/
def attachIsValid (n : Nat) (x : Int) : Bool :=
  decide (1 ≤ x) && decide (x ≤ (n : Int))

/-- The selection logic of the `attach` subcommand: zero servers is a no-op;
one server is auto-selected; more than one asks the user for a 1-based index
and uses `running[answer - 1]`. -/
def attachSelect (running : List String) (answers : List (Option Int)) :
    Option String :=
  if running.length = 0 then none
  else if running.length = 1 then some (running.headD "")
  else (user_input (attachIsValid running.length) answers).map
    (fun x => running.getD (x - 1).toNat "")

/-- The `is_valid` lambda of `kill`: `0 <= x <= len(running)`. -/
def killIsValid (n : Nat) (x : Int) : Bool :=
  decide (0 ≤ x) && decide (x ≤ (n : Int))

/-- The target-selection logic of the `kill` subcommand: the list of server
records to be stopped.  Zero servers: nothing; `--all`: every record; one
server: that record; otherwise ask for an index in `[0, len(running)]`, where
`server_id = answer - 1`, and `server_id == -1` (answer `0`) selects every
record while any other accepted answer selects `running[server_id]`. -/
def killTargets (running : List String) (killall : Bool)
    (answers : List (Option Int)) : Option (List String) :=
  if running.length = 0 then some []
  else if killall then some running
  else if running.length = 1 then some [running.headD ""]
  else (user_input (killIsValid running.length) answers).map
    (fun x => if x - 1 ≠ -1 then [running.getD (x - 1).toNat ""] else running)

-- ### URL rewriting (`open_local`)

/-- Characters permitted in a URL scheme by `urllib.parse`:
letters, digits, `+`, `-`, `.`. -/
def schemeChar (c : Char) : Bool :=
  c.isAlpha || c.isDigit || c = '+' || c = '-' || c = '.'

/-- A character that does not end the netloc part (`urllib` stops the netloc
at the first of `/`, `?`, `#`). -/
def netlocChar (c : Char) : Bool :=
  !(c = '/') && !(c = '?') && !(c = '#')

/-- The components of `urllib.parse.urlparse` that this program uses
(`params` is not modelled; the inputs considered contain no `;`). -/
structure UrlParts where
  scheme : List Char
  netloc : List Char
  path : List Char
  query : List Char
  fragment : List Char
deriving DecidableEq

/-- The scheme split of `urlsplit`: `i = url.find(':')`; when `i > 0`, the
first character is a letter and `url[:i]` consists of scheme characters, the
(lowercased) scheme is split off; otherwise there is no scheme. -/
def splitSchemePart (url : List Char) : List Char × List Char :=
  let pre := url.takeWhile (fun c => !(c = ':'))
  if !pre.isEmpty && decide (pre.length < url.length) &&
      url.head?.elim false Char.isAlpha && pre.all schemeChar
  then (pre.map Char.toLower, url.drop (pre.length + 1))
  else ([], url)

/-- The netloc split of `urlsplit` (`_splitnetloc`): when the remainder starts
with `//`, the netloc runs up to the first of `/`, `?`, `#`. -/
def splitNetlocPart (rest : List Char) : List Char × List Char :=
  if rest.take 2 = ['/', '/'] then
    ((rest.drop 2).takeWhile netlocChar, (rest.drop 2).dropWhile netlocChar)
  else ([], rest)

/-- Python `l.split(a, 1)` used only when `a in l` matters: if `a` occurs, the
parts before and after its first occurrence, else `(l, [])`. -/
def splitAtFirst (a : Char) (l : List Char) : List Char × List Char :=
  if l.contains a then
    (l.takeWhile (fun c => !(c = a)), (l.dropWhile (fun c => !(c = a))).drop 1)
  else (l, [])

/-- `urllib.parse.urlparse` (fragments allowed, `params` splitting omitted:
the inputs considered contain no `;`): split off the scheme, then the netloc,
then the fragment at the first `#`, then the query at the first `?`; what
remains is the path. -/
def urlparse (url : List Char) : UrlParts :=
  let sp := splitSchemePart url
  let np := splitNetlocPart sp.2
  let fp := splitAtFirst '#' np.2
  let qp := splitAtFirst '?' fp.1
  ⟨sp.1, np.1, qp.1, qp.2, fp.2⟩

/-- `urllib.parse.urlunsplit` (equivalently `geturl` on a result with empty
`params`): reassemble the URL from its components. -/
def geturl (u : UrlParts) : List Char :=
  let url := u.path
  let url := if u.netloc ≠ [] ∨ url.take 2 = ['/', '/'] then
      ['/', '/'] ++ u.netloc ++
        (if url ≠ [] ∧ url.take 1 ≠ ['/'] then '/' :: url else url)
    else url
  let url := if u.scheme ≠ [] then u.scheme ++ ':' :: url else url
  let url := if u.query ≠ [] then url ++ '?' :: u.query else url
  if u.fragment ≠ [] then url ++ '#' :: u.fragment else url

/-- `"localhost:{}".format(local_port)`. -/
def localNetloc (p : Nat) : List Char :=
  "localhost:".data ++ (toString p).data

/-- The URL computation of `open_local`: parse the remote URL, replace its
netloc by `localhost:<local_port>`, reassemble.  This is the URL handed to
`webbrowser.open`. -/
def openLocalUrl (urlRemote : List Char) (localPort : Nat) : List Char :=
  let u := urlparse urlRemote
  geturl { u with netloc := localNetloc localPort }

-- ## Helper lemmas

theorem dropWhile_dropWhile_self {α : Type} (p : α → Bool) (l : List α) :
    (l.dropWhile p).dropWhile p = l.dropWhile p := by
  induction l with
  | nil => rfl
  | cons a l ih =>
    by_cases h : p a = true
    · simp [List.dropWhile_cons, h, ih]
    · simp [List.dropWhile_cons, h]

theorem head?_dropWhile_false {α : Type} {p : α → Bool} {l : List α} {x : α}
    (hx : (l.dropWhile p).head? = some x) : p x = false := by
  have h := List.head?_dropWhile_not p l
  rw [hx] at h
  exact h

theorem dropWhile_eq_self_of_head? {α : Type} {p : α → Bool} {l : List α}
    (h : ∀ x, l.head? = some x → p x = false) : l.dropWhile p = l := by
  cases l with
  | nil => rfl
  | cons a l =>
    have ha := h a rfl
    simp [List.dropWhile_cons, ha]

theorem exists_dropWhile_suffix_eq {α : Type} (p : α → Bool) (l : List α) :
    ∃ t, l = t ++ l.dropWhile p :=
  ⟨l.takeWhile p, (List.takeWhile_append_dropWhile p l).symm⟩

theorem getLast?_dropWhile_of_ne_nil {α : Type} {p : α → Bool} {l : List α}
    (h : l.dropWhile p ≠ []) : (l.dropWhile p).getLast? = l.getLast? := by
  obtain ⟨t, ht⟩ := exists_dropWhile_suffix_eq p l
  conv_rhs => rw [ht]
  rw [List.getLast?_append_of_ne_nil t h]

theorem pyStrip_idem (l : List Char) : pyStrip (pyStrip l) = pyStrip l := by
  unfold pyStrip
  have h1 : ((((l.dropWhile isPySpace).reverse.dropWhile isPySpace).reverse).dropWhile
      isPySpace) = ((l.dropWhile isPySpace).reverse.dropWhile isPySpace).reverse := by
    apply dropWhile_eq_self_of_head?
    intro x hx
    rw [List.head?_reverse] at hx
    by_cases hB : (l.dropWhile isPySpace).reverse.dropWhile isPySpace = []
    · rw [hB] at hx
      simp at hx
    · rw [getLast?_dropWhile_of_ne_nil hB, List.getLast?_reverse] at hx
      exact head?_dropWhile_false hx
  rw [h1, List.reverse_reverse, dropWhile_dropWhile_self]

-- ## Claims

/-- **C2** (counterexample): with banner pair `("a", "")` and output `"aa"`,
stripping once yields `"a"` but stripping twice yields `""`, so
`strip_talk (strip_talk output)` differs from `strip_talk output`:
banner stripping is not idempotent for every banner pair and output. -/
theorem c2_counterexample :
    strip_talk ['a'] [] (strip_talk ['a'] [] ['a', 'a']) ≠
      strip_talk ['a'] [] ['a', 'a'] := by decide

/-- **C2** (amended): stripping twice equals stripping once for every banner
pair `(pre, suf)` and output whose once-stripped result carries no further
surrounding whitespace, does not again start with a nonempty `pre`, and does
not again end with a nonempty `suf`.  (The counterexample shows the unamended
universal claim fails when a banner occurrence survives the first pass.) -/
theorem c2_strip_talk_conditional_idem (pre suf o : List Char)
    (hw : pyStrip (strip_talk pre suf o) = strip_talk pre suf o)
    (hpre : (pre.length > 0 && pre.isPrefixOf (strip_talk pre suf o)) = false)
    (hsuf : (suf.length > 0 && suf.isSuffixOf (strip_talk pre suf o)) = false) :
    strip_talk pre suf (strip_talk pre suf o) = strip_talk pre suf o := by
  conv_lhs => rw [strip_talk]
  simp only [hw, hpre, hsuf, Bool.false_eq_true, if_false]

/-- **C2** (witness): with banner pair `("a", "b")` and output `" aXb "`, the
once-stripped output is `"X"`, which satisfies the three side conditions, and
stripping twice indeed equals stripping once. -/
theorem c2_strip_talk_conditional_idem_witness :
    pyStrip (strip_talk ['a'] ['b'] [' ', 'a', 'X', 'b', ' ']) =
        strip_talk ['a'] ['b'] [' ', 'a', 'X', 'b', ' '] ∧
      (List.length ['a'] > 0 &&
        List.isPrefixOf ['a'] (strip_talk ['a'] ['b'] [' ', 'a', 'X', 'b', ' '])) = false ∧
      (List.length ['b'] > 0 &&
        List.isSuffixOf ['b'] (strip_talk ['a'] ['b'] [' ', 'a', 'X', 'b', ' '])) = false ∧
      strip_talk ['a'] ['b'] (strip_talk ['a'] ['b'] [' ', 'a', 'X', 'b', ' ']) =
        strip_talk ['a'] ['b'] [' ', 'a', 'X', 'b', ' '] :=
  ⟨by decide, by decide, by decide,
    c2_strip_talk_conditional_idem ['a'] ['b'] [' ', 'a', 'X', 'b', ' ']
      (by decide) (by decide) (by decide)⟩

/-- **C9**: `strip_talk` first strips surrounding whitespace from the output
(so `strip_talk pre suf o` equals `strip_talk pre suf` of the whitespace-
trimmed output); with both banner strings empty it is exactly whitespace
trimming, and in particular on `" x"` it returns `"x"`, not the input. -/
theorem c9_strip_whitespace_first (pre suf o : List Char) :
    strip_talk pre suf o = strip_talk pre suf (pyStrip o) ∧
      strip_talk [] [] o = pyStrip o ∧
      strip_talk [] [] [' ', 'x'] ≠ [' ', 'x'] := by
  refine ⟨?_, ?_, by decide⟩
  · simp only [strip_talk, pyStrip_idem]
  · simp [strip_talk]

theorem mem_newServerIndices {before after : List String} {i : Nat}
    (h : i ∈ newServerIndices before after) :
    i < after.length ∧ after.getD i "" ∉ before := by
  unfold newServerIndices at h
  obtain ⟨⟨j, s⟩, hmem, hfst⟩ := List.mem_map.mp h
  obtain ⟨henum, hnot⟩ := List.mem_filter.mp hmem
  subst hfst
  have hget := List.mk_mem_enum_iff_getElem?.mp henum
  have hlt : j < after.length := by
    by_contra hge
    rw [List.getElem?_eq_none (Nat.le_of_not_lt hge)] at hget
    exact Option.noConfusion hget
  refine ⟨hlt, ?_⟩
  have hgetD : after.getD j "" = s := by
    rw [List.getD_eq_getElem?_getD, hget]
    rfl
  rw [hgetD]
  intro hin
  rw [Bool.not_eq_true', ← Bool.not_eq_true] at hnot
  exact hnot (List.elem_iff.mpr hin)

/-- **C3** (counterexample): with before-listing `[]` and after-listing
`["x", "x"]` the polling loop's exit condition holds (2 > 0) and the set of
lines present after but not before is the one-element set `{"x"}`, yet the
code's index-based detection finds two new indices and fails its assertion
instead of returning the listing and an index. -/
theorem c3_counterexample :
    ([] : List String).length < (["x", "x"] : List String).length ∧
      (newLineSet [] ["x", "x"]).length = 1 ∧
      detectNewServer [] ["x", "x"] = Except.error Err.assertionError :=
  ⟨by decide, by decide, rfl⟩

/-- **C3** (amended): after the polling loop terminates (after-listing
strictly longer than before-listing), the detection computes the list of
indices of after-listing lines not present in the before-listing (positional,
not a set of lines); exactly one such index yields `ok` with the updated
listing and that index — which points at a line absent from the before
listing — while zero or several yield the assertion-class invariant
violation, which is not a recoverable `JumpException`. -/
theorem c3_detect_new_server (before after : List String)
    (_h : before.length < after.length) :
    ((newServerIndices before after).length = 1 →
        detectNewServer before after =
            Except.ok (after, (newServerIndices before after).headD 0) ∧
          (newServerIndices before after).headD 0 < after.length ∧
          after.getD ((newServerIndices before after).headD 0) "" ∉ before) ∧
      ((newServerIndices before after).length ≠ 1 →
        detectNewServer before after = Except.error Err.assertionError) ∧
      isRecoverable Err.assertionError = false := by
  refine ⟨?_, ?_, rfl⟩
  · intro h1
    obtain ⟨i, hi⟩ := List.length_eq_one.mp h1
    have hmem : i ∈ newServerIndices before after := by rw [hi]; exact List.mem_singleton.mpr rfl
    obtain ⟨hlt, hnot⟩ := mem_newServerIndices hmem
    refine ⟨?_, ?_, ?_⟩
    · unfold detectNewServer
      rw [if_pos h1]
    · rw [hi]; simpa using hlt
    · rw [hi]; simpa using hnot
  · intro h1
    unfold detectNewServer
    rw [if_neg h1]

/-- **C3** (witness for the amended theorem): before `["a"]`, after
`["a", "b"]`: the loop exit condition holds, there is exactly one new index
(`1`), detection succeeds with it, and two-new/zero-new inputs would be
assertion errors. -/
theorem c3_detect_new_server_witness :
    (["a"] : List String).length < (["a", "b"] : List String).length ∧
      ((newServerIndices ["a"] ["a", "b"]).length = 1 →
          detectNewServer ["a"] ["a", "b"] =
              Except.ok (["a", "b"], (newServerIndices ["a"] ["a", "b"]).headD 0) ∧
            (newServerIndices ["a"] ["a", "b"]).headD 0 < (["a", "b"] : List String).length ∧
            (["a", "b"] : List String).getD ((newServerIndices ["a"] ["a", "b"]).headD 0) ""
              ∉ (["a"] : List String)) ∧
        ((newServerIndices ["a"] ["a", "b"]).length ≠ 1 →
          detectNewServer ["a"] ["a", "b"] = Except.error Err.assertionError) ∧
        isRecoverable Err.assertionError = false :=
  ⟨by decide, c3_detect_new_server ["a"] ["a", "b"] (by decide)⟩

/-- **C4**: when a start request carries modules and any one of them fails to
load, the whole start sequence aborts with the module-load `JumpException`
after only the pre-flight ssh test invocation — in particular no server
process is spawned. -/
theorem c4_module_failure_aborts (modules : List String) (profileOk : Bool)
    (moduleOk : String → Bool) (m : String) (hm : m ∈ modules)
    (hfail : moduleOk m = false) :
    (start_jupyter_server_trace modules profileOk moduleOk).2 =
        some (Err.jumpException "Failed to load modules") ∧
      Effect.spawnServer ∉ (start_jupyter_server_trace modules profileOk moduleOk).1 ∧
      (start_jupyter_server_trace modules profileOk moduleOk).1 =
        [Effect.sshTest (loadCommand modules)] := by
  have hne : modules.isEmpty = false := by
    cases modules with
    | nil => cases hm
    | cons a l => rfl
  have hall : modules.all moduleOk = false := by
    rw [← Bool.not_eq_true, List.all_eq_true]
    intro hforall
    rw [hforall m hm] at hfail
    exact Bool.noConfusion hfail
  have htest : (profileOk && modules.all moduleOk) = false := by
    rw [hall, Bool.and_false]
  unfold start_jupyter_server_trace
  rw [hne, htest]
  refine ⟨rfl, ?_, rfl⟩
  intro hmem
  simp at hmem

/-- **C4** (witness): starting with modules `["m1", "m2"]` where `"m2"` fails
to load aborts with the module-load error, having run only the test
invocation, before spawning any server. -/
theorem c4_module_failure_aborts_witness :
    ("m2" ∈ ["m1", "m2"]) ∧
      (fun s => s == "m1" : String → Bool) "m2" = false ∧
      (start_jupyter_server_trace ["m1", "m2"] true (fun s => s == "m1")).2 =
          some (Err.jumpException "Failed to load modules") ∧
        Effect.spawnServer ∉
          (start_jupyter_server_trace ["m1", "m2"] true (fun s => s == "m1")).1 ∧
        (start_jupyter_server_trace ["m1", "m2"] true (fun s => s == "m1")).1 =
          [Effect.sshTest (loadCommand ["m1", "m2"])] :=
  ⟨by decide, by decide,
    c4_module_failure_aborts ["m1", "m2"] true (fun s => s == "m1") "m2"
      (by decide) (by decide)⟩

/-- **C1** (counterexample): with zero servers running and no subcommand, the
group callback invokes `start` directly, and the full effect trace of the
start path (with no modules) contains a server spawn but no user prompt at
all — the tool never asks a yes/no question before starting, so declining is
impossible and the claimed prompt does not exist. -/
theorem c1_counterexample :
    cliAutoInvoke [] = JumpCmd.start ∧
      (startCmdTrace [] true (fun _ => true)).1.any Effect.isPrompt = false ∧
      Effect.spawnServer ∈ (startCmdTrace [] true (fun _ => true)).1 := by decide

/-- **C1** (amended): when zero servers are running and no subcommand is
given, the tool invokes the `start` subcommand directly: whatever the module
options and their outcomes, the start path never prompts the user, and with
no modules requested a new server process is spawned (followed by the
tunnel and browser). -/
theorem c1_zero_servers_starts_without_prompt (modules : List String)
    (profileOk : Bool) (moduleOk : String → Bool) :
    cliAutoInvoke [] = JumpCmd.start ∧
      (startCmdTrace modules profileOk moduleOk).1.any Effect.isPrompt = false ∧
      Effect.spawnServer ∈ (startCmdTrace [] profileOk moduleOk).1 := by
  refine ⟨rfl, ?_, ?_⟩
  · unfold startCmdTrace start_jupyter_server_trace
    by_cases h1 : modules.isEmpty
    · rw [if_pos h1]
      rfl
    · rw [if_neg h1]
      by_cases h2 : (profileOk && modules.all moduleOk) = true
      · rw [if_pos h2]
        rfl
      · rw [if_neg h2]
        rfl
  · unfold startCmdTrace start_jupyter_server_trace
    simp

theorem takeWhile_dropWhile_split {α : Type} (p : α → Bool) (l₁ l₂ : List α) (c : α)
    (h1 : ∀ x ∈ l₁, p x = true) (h2 : p c = false) :
    (l₁ ++ c :: l₂).takeWhile p = l₁ ∧ (l₁ ++ c :: l₂).dropWhile p = c :: l₂ := by
  constructor
  · rw [List.takeWhile_append_of_pos h1,
      List.takeWhile_cons_of_neg (by simp [h2]), List.append_nil]
  · rw [List.dropWhile_append_of_pos h1,
      List.dropWhile_cons_of_neg (by simp [h2])]

theorem validKeyChar_ne_eq {c : Char} (h : validKeyChar c = true) : ¬ c = '=' := by
  intro he
  subst he
  exact absurd h (by decide)

/-- **C6**: a line of the environment dump is accepted as a `KEY=VALUE`
binding exactly when it decomposes as a nonempty key of characters that are
not whitespace, parentheses, percent signs or equals signs, followed by `=`
and an arbitrary remainder (which may itself contain `=`); the parsed key is
the text before the first `=` and the value the text after it. -/
theorem c6_env_line_iff (line k v : List Char) :
    parseEnvLine line = some (k, v) ↔
      (line = k ++ '=' :: v ∧ k ≠ [] ∧ ∀ c ∈ k, validKeyChar c = true) := by
  constructor
  · intro h
    unfold parseEnvLine at h
    by_cases hm : matchesEnvLine line = true
    · rw [if_pos hm] at h
      have hsome : splitEq1 line = (k, v) := by
        injection h
      unfold matchesEnvLine at hm
      rw [Bool.and_eq_true] at hm
      obtain ⟨hne, hhead⟩ := hm
      have hline : line.takeWhile validKeyChar ++ line.dropWhile validKeyChar = line :=
        List.takeWhile_append_dropWhile _ _
      obtain ⟨t, hDt⟩ : ∃ t, line.dropWhile validKeyChar = '=' :: t := by
        cases hD : line.dropWhile validKeyChar with
        | nil => rw [hD] at hhead; exact absurd hhead (by decide)
        | cons d t =>
          rw [hD] at hhead
          simp only [List.head?_cons, Option.some.injEq, beq_iff_eq] at hhead
          exact ⟨t, by rw [hhead]⟩
      have hKvalid : ∀ c ∈ line.takeWhile validKeyChar, validKeyChar c = true :=
        fun c hc => List.mem_takeWhile_imp hc
      have hKne : line.takeWhile validKeyChar ≠ [] := by
        intro h0
        rw [h0] at hne
        exact absurd hne (by decide)
      have h1 : ∀ x ∈ line.takeWhile validKeyChar, (!(x = '=' : Bool)) = true := by
        intro x hx
        simp [validKeyChar_ne_eq (hKvalid x hx)]
      have hsplit : splitEq1 line = (line.takeWhile validKeyChar, t) := by
        unfold splitEq1
        conv_lhs => rw [← hline, hDt]
        obtain ⟨ht, hd⟩ := takeWhile_dropWhile_split (fun c => !(c = '=' : Bool))
          (line.takeWhile validKeyChar) t '=' h1 (by simp)
        rw [ht, hd]
        simp
      rw [hsplit] at hsome
      have hk : line.takeWhile validKeyChar = k := (Prod.mk.injEq _ _ _ _ ▸ hsome).1
      have hv : t = v := (Prod.mk.injEq _ _ _ _ ▸ hsome).2
      subst hk
      subst hv
      exact ⟨hline.symm.trans (by rw [hDt]), hKne, hKvalid⟩
    · rw [if_neg hm] at h
      exact absurd h (by simp)
  · rintro ⟨rfl, hne, hvalid⟩
    obtain ⟨htK, hdK⟩ := takeWhile_dropWhile_split validKeyChar k v '='
      hvalid (by decide)
    have h1 : ∀ x ∈ k, (!(x = '=' : Bool)) = true := by
      intro x hx
      simp [validKeyChar_ne_eq (hvalid x hx)]
    obtain ⟨htE, hdE⟩ := takeWhile_dropWhile_split (fun c => !(c = '=' : Bool))
      k v '=' h1 (by simp)
    have hm : matchesEnvLine (k ++ '=' :: v) = true := by
      unfold matchesEnvLine
      rw [htK, hdK]
      cases k with
      | nil => exact absurd rfl hne
      | cons a l => simp
    unfold parseEnvLine
    rw [if_pos hm]
    unfold splitEq1
    rw [htE, hdE]
    simp

/-- **C6** (witness): the line `A=b=c` is accepted with key `A` and value
`b=c` (a value containing `=`), via the theorem's right-to-left direction. -/
theorem c6_env_line_iff_witness :
    parseEnvLine "A=b=c".data = some ("A".data, "b=c".data) :=
  (c6_env_line_iff "A=b=c".data "A".data "b=c".data).mpr (by decide)

theorem envDictOf_aux (l : List String) (d : List (String × String))
    (h : (d.map Prod.fst ++ l.map basename).Nodup) :
    l.foldl (fun acc e => dictUpsert acc (basename e) e) d =
      d ++ l.map (fun e => (basename e, e)) := by
  induction l generalizing d with
  | nil => simp
  | cons e l ih =>
    have hdisj : basename e ∉ d.map Prod.fst := by
      rw [List.nodup_append] at h
      intro hmem
      exact h.2.2 hmem (by simp)
    have hstep : dictUpsert d (basename e) e = d ++ [(basename e, e)] := by
      unfold dictUpsert
      rw [if_neg]
      intro hany
      obtain ⟨kv, hkv, heq⟩ := List.any_eq_true.mp hany
      rw [beq_iff_eq] at heq
      exact hdisj (List.mem_map.mpr ⟨kv, hkv, heq⟩)
    have hnodup : ((d ++ [(basename e, e)]).map Prod.fst ++ l.map basename).Nodup := by
      rw [List.map_append, List.append_assoc]
      simpa using h
    rw [List.foldl_cons, hstep, ih _ hnodup, List.append_assoc]
    rfl

/-- **C5** (counterexample): the listing `["/envs/default", "/mc3"]` has
`N = 1` path with a distinct basename (`default`) plus one path equal to the
base installation path `/mc3`, yet the registry has `3` entries — not
`N + 1 = 2` — because the base path is keyed both under its own basename
`mc3` and under the alias `base`. -/
theorem c5_counterexample :
    ((["/envs/default"] ++ ["/mc3"]).map basename).Nodup ∧
      ("base", "/mc3") ∈ envRegistry (["/envs/default"] ++ ["/mc3"]) "/mc3" ∧
      (envRegistry (["/envs/default"] ++ ["/mc3"]) "/mc3").length = 3 ∧
      (envRegistry (["/envs/default"] ++ ["/mc3"]) "/mc3").length ≠
        (["/envs/default"] : List String).length + 1 := by decide

/-- **C5** (amended): given an environment listing of `N` paths with distinct
basenames plus one further path equal to the manager's base installation path
(all `N + 1` basenames distinct and none of them the literal name `base`),
the registry built by `get_conda_envs`/`get_mamba_envs` has exactly `N + 2`
entries: one per basename — the base path keyed under its own basename too —
plus the alias entry named `base` whose path equals the base installation
path. -/
theorem c5_registry_size (envs : List String) (base : String)
    (h1 : ((envs ++ [base]).map basename).Nodup)
    (h2 : "base" ∉ (envs ++ [base]).map basename) :
    (envRegistry (envs ++ [base]) base).length = envs.length + 2 ∧
      ("base", base) ∈ envRegistry (envs ++ [base]) base ∧
      get_conda_envs (envs ++ [base]) base = envRegistry (envs ++ [base]) base ∧
      get_mamba_envs (envs ++ [base]) base = envRegistry (envs ++ [base]) base := by
  have hdict : envDictOf (envs ++ [base]) =
      (envs ++ [base]).map (fun e => (basename e, e)) := by
    unfold envDictOf
    have := envDictOf_aux (envs ++ [base]) [] (by simpa using h1)
    simpa using this
  have hbasemem : (envDictOf (envs ++ [base])).any (fun kv => kv.2 == base) = true := by
    rw [hdict]
    apply List.any_eq_true.mpr
    refine ⟨(basename base, base), ?_, by simp⟩
    exact List.mem_map.mpr ⟨base, by simp, rfl⟩
  have hkeys : (envDictOf (envs ++ [base])).map Prod.fst =
      (envs ++ [base]).map basename := by
    rw [hdict, List.map_map]
    rfl
  have hup : dictUpsert (envDictOf (envs ++ [base])) "base" base =
      envDictOf (envs ++ [base]) ++ [("base", base)] := by
    unfold dictUpsert
    rw [if_neg]
    intro hany
    obtain ⟨kv, hkv, heq⟩ := List.any_eq_true.mp hany
    rw [beq_iff_eq] at heq
    exact h2 (hkeys ▸ List.mem_map.mpr ⟨kv, hkv, heq⟩)
  have hreg : envRegistry (envs ++ [base]) base =
      envDictOf (envs ++ [base]) ++ [("base", base)] := by
    simp only [envRegistry, hbasemem, if_true]
    exact hup
  refine ⟨?_, ?_, rfl, rfl⟩
  · rw [hreg, List.length_append, hdict, List.length_map, List.length_append]
    simp
  · rw [hreg]
    simp

/-- **C5** (witness for the amended theorem): listing
`["/envs/default", "/mc3"]` with base path `/mc3` satisfies the distinctness
hypotheses and yields a registry of `1 + 2 = 3` entries containing
`("base", "/mc3")`. -/
theorem c5_registry_size_witness :
    ((["/envs/default"] ++ ["/mc3"]).map basename).Nodup ∧
      "base" ∉ (["/envs/default"] ++ ["/mc3"]).map basename ∧
      (envRegistry (["/envs/default"] ++ ["/mc3"]) "/mc3").length =
          (["/envs/default"] : List String).length + 2 ∧
        ("base", "/mc3") ∈ envRegistry (["/envs/default"] ++ ["/mc3"]) "/mc3" ∧
        get_conda_envs (["/envs/default"] ++ ["/mc3"]) "/mc3" =
          envRegistry (["/envs/default"] ++ ["/mc3"]) "/mc3" ∧
        get_mamba_envs (["/envs/default"] ++ ["/mc3"]) "/mc3" =
          envRegistry (["/envs/default"] ++ ["/mc3"]) "/mc3" :=
  ⟨by decide, by decide,
    c5_registry_size ["/envs/default"] "/mc3" (by decide) (by decide)⟩

/-- **C8**: in the attach path with more than one server running, an answer
is accepted exactly when it is an integer `x` with `1 ≤ x ≤ N`; a
non-numeric answer or an out-of-range integer (such as `0` or `N + 1`) only
causes the loop to move on to the next answer — for any script length, so
there is no maximum retry count — and never yields a selection (an
all-invalid script selects nothing), while a first valid answer `x`
immediately selects the `x`-th listed server, `running[x - 1]`. -/
theorem c8_attach_selection (running : List String) (h : 1 < running.length) :
    (∀ x : Int, attachIsValid running.length x = true ↔
        (1 ≤ x ∧ x ≤ (running.length : Int))) ∧
      (∀ rest : List (Option Int),
        attachSelect running (none :: rest) = attachSelect running rest) ∧
      (∀ (x : Int) (rest : List (Option Int)),
        ¬(1 ≤ x ∧ x ≤ (running.length : Int)) →
          attachSelect running (some x :: rest) = attachSelect running rest) ∧
      attachSelect running [] = none ∧
      (∀ (x : Int) (rest : List (Option Int)),
        1 ≤ x → x ≤ (running.length : Int) →
          attachSelect running (some x :: rest) =
            some (running.getD (x - 1).toNat "")) := by
  have h0 : ¬ running.length = 0 := by omega
  have h1 : ¬ running.length = 1 := by omega
  have hvalid : ∀ x : Int, attachIsValid running.length x = true ↔
      (1 ≤ x ∧ x ≤ (running.length : Int)) := by
    intro x
    unfold attachIsValid
    rw [Bool.and_eq_true, decide_eq_true_iff, decide_eq_true_iff]
  refine ⟨hvalid, ?_, ?_, ?_, ?_⟩
  · intro rest
    simp only [attachSelect, if_neg h0, if_neg h1, user_input]
  · intro x rest hx
    have : attachIsValid running.length x = false := by
      rw [← Bool.not_eq_true, hvalid x]
      exact hx
    simp only [attachSelect, if_neg h0, if_neg h1, user_input, this,
      Bool.false_eq_true, if_false]
  · simp only [attachSelect, if_neg h0, if_neg h1, user_input]
    rfl
  · intro x rest hx1 hx2
    have : attachIsValid running.length x = true := (hvalid x).mpr ⟨hx1, hx2⟩
    simp only [attachSelect, if_neg h0, if_neg h1, user_input, this, if_true]
    rfl

/-- **C8** (witness): with the two-server listing `["s1", "s2"]`, all five
conjuncts hold; e.g. the invalid answers `0`, `3` and a non-numeric answer
re-prompt and a valid `2` selects `"s2"`. -/
theorem c8_attach_selection_witness :
    1 < (["s1", "s2"] : List String).length ∧
      ((∀ x : Int, attachIsValid (["s1", "s2"] : List String).length x = true ↔
          (1 ≤ x ∧ x ≤ ((["s1", "s2"] : List String).length : Int))) ∧
        (∀ rest : List (Option Int),
          attachSelect ["s1", "s2"] (none :: rest) = attachSelect ["s1", "s2"] rest) ∧
        (∀ (x : Int) (rest : List (Option Int)),
          ¬(1 ≤ x ∧ x ≤ ((["s1", "s2"] : List String).length : Int)) →
            attachSelect ["s1", "s2"] (some x :: rest) =
              attachSelect ["s1", "s2"] rest) ∧
        attachSelect ["s1", "s2"] [] = none ∧
        (∀ (x : Int) (rest : List (Option Int)),
          1 ≤ x → x ≤ ((["s1", "s2"] : List String).length : Int) →
            attachSelect ["s1", "s2"] (some x :: rest) =
              some ((["s1", "s2"] : List String).getD (x - 1).toNat ""))) :=
  ⟨by decide, c8_attach_selection ["s1", "s2"] (by decide)⟩

/-- **C10**: in the interactive kill path with more than one server running
and no `--all` flag, an answer is accepted exactly when it is an integer `x`
with `0 ≤ x ≤ N`; an accepted `0` selects every running server immediately
(no further answer is consulted — no extra confirmation), and an accepted
`x` in `[1, N]` selects exactly the `x`-th listed server. -/
theorem c10_kill_selection (running : List String) (h : 1 < running.length) :
    (∀ x : Int, killIsValid running.length x = true ↔
        (0 ≤ x ∧ x ≤ (running.length : Int))) ∧
      (∀ rest : List (Option Int),
        killTargets running false (some 0 :: rest) = some running) ∧
      (∀ (x : Int) (rest : List (Option Int)),
        1 ≤ x → x ≤ (running.length : Int) →
          killTargets running false (some x :: rest) =
            some [running.getD (x - 1).toNat ""]) := by
  have h0 : ¬ running.length = 0 := by omega
  have h1 : ¬ running.length = 1 := by omega
  have hvalid : ∀ x : Int, killIsValid running.length x = true ↔
      (0 ≤ x ∧ x ≤ (running.length : Int)) := by
    intro x
    unfold killIsValid
    rw [Bool.and_eq_true, decide_eq_true_iff, decide_eq_true_iff]
  refine ⟨hvalid, ?_, ?_⟩
  · intro rest
    have hv : killIsValid running.length 0 = true := (hvalid 0).mpr ⟨le_refl 0, by omega⟩
    simp only [killTargets, if_neg h0, Bool.false_eq_true, if_false, if_neg h1,
      user_input, hv, if_true]
    norm_num
  · intro x rest hx1 hx2
    have hv : killIsValid running.length x = true := (hvalid x).mpr ⟨by omega, hx2⟩
    have hne : x - 1 ≠ -1 := by omega
    simp only [killTargets, if_neg h0, Bool.false_eq_true, if_false, if_neg h1,
      user_input, hv, if_true]
    show some (if x - 1 ≠ -1 then [running.getD (x - 1).toNat ""] else running) = _
    rw [if_pos hne]

/-- **C10** (witness): with the two-server listing `["s1", "s2"]` the
acceptance range is `[0, 2]`, answering `0` kills both servers with no
further confirmation, and answering `2` kills exactly `"s2"`. -/
theorem c10_kill_selection_witness :
    1 < (["s1", "s2"] : List String).length ∧
      ((∀ x : Int, killIsValid (["s1", "s2"] : List String).length x = true ↔
          (0 ≤ x ∧ x ≤ ((["s1", "s2"] : List String).length : Int))) ∧
        (∀ rest : List (Option Int),
          killTargets ["s1", "s2"] false (some 0 :: rest) = some ["s1", "s2"]) ∧
        (∀ (x : Int) (rest : List (Option Int)),
          1 ≤ x → x ≤ ((["s1", "s2"] : List String).length : Int) →
            killTargets ["s1", "s2"] false (some x :: rest) =
              some [(["s1", "s2"] : List String).getD (x - 1).toNat ""])) :=
  ⟨by decide, c10_kill_selection ["s1", "s2"] (by decide)⟩

def lowercaseAscii : List Char := "abcdefghijklmnopqrstuvwxyz".data

theorem lowercaseAscii_facts :
    ∀ c ∈ lowercaseAscii, Char.toLower c = c ∧ c.isAlpha = true ∧
      schemeChar c = true ∧ (!(c = ':' : Bool)) = true := by decide

theorem map_toLower_eq_self {l : List Char} (h : ∀ c ∈ l, c ∈ lowercaseAscii) :
    l.map Char.toLower = l := by
  induction l with
  | nil => rfl
  | cons a t ih =>
    have ha := (lowercaseAscii_facts a (h a (List.mem_cons_self a t))).1
    rw [List.map_cons, ha, ih (fun c hc => h c (List.mem_cons_of_mem a hc))]

theorem contains_eq_true {l : List Char} {a : Char} (h : a ∈ l) :
    l.contains a = true := List.elem_iff.mpr h

theorem contains_eq_false {l : List Char} {a : Char} (h : a ∉ l) :
    l.contains a = false := by
  rw [← Bool.not_eq_true]
  intro hc
  exact h (List.elem_iff.mp hc)

theorem splitAtFirst_not_mem {a : Char} {l : List Char} (h : a ∉ l) :
    splitAtFirst a l = (l, []) := by
  unfold splitAtFirst
  rw [if_neg (by simpa using h)]

theorem splitAtFirst_split {a : Char} {l₁ l₂ : List Char} (h : a ∉ l₁) :
    splitAtFirst a (l₁ ++ a :: l₂) = (l₁, l₂) := by
  unfold splitAtFirst
  rw [if_pos (contains_eq_true (List.mem_append.mpr (Or.inr (List.mem_cons_self a l₂))))]
  have h1 : ∀ x ∈ l₁, (!(x = a : Bool)) = true := by
    intro x hx
    have hxa : ¬ x = a := fun he => h (he ▸ hx)
    simp [hxa]
  obtain ⟨ht, hd⟩ := takeWhile_dropWhile_split (fun c => !(c = a : Bool)) l₁ l₂ a h1 (by simp)
  rw [ht, hd]
  simp

theorem splitNetlocPart_split {netloc rest : List Char} {c : Char}
    (hn : ∀ x ∈ netloc, netlocChar x = true) (hc : netlocChar c = false) :
    splitNetlocPart ('/' :: '/' :: (netloc ++ c :: rest)) = (netloc, c :: rest) := by
  unfold splitNetlocPart
  have hcond : List.take 2 ('/' :: '/' :: (netloc ++ c :: rest)) = ['/', '/'] := rfl
  rw [if_pos hcond]
  obtain ⟨ht, hd⟩ := takeWhile_dropWhile_split netlocChar netloc rest c hn hc
  simp only [List.drop_succ_cons, List.drop_zero]
  rw [ht, hd]

theorem splitSchemePart_split {scheme R : List Char}
    (hs1 : scheme ≠ []) (hs2 : ∀ c ∈ scheme, c ∈ lowercaseAscii) :
    splitSchemePart (scheme ++ ':' :: R) = (scheme, R) := by
  have hcolon : ∀ x ∈ scheme, (!(x = ':' : Bool)) = true :=
    fun x hx => (lowercaseAscii_facts x (hs2 x hx)).2.2.2
  obtain ⟨ht, _⟩ := takeWhile_dropWhile_split (fun c => !(c = ':' : Bool))
    scheme R ':' hcolon (by simp)
  have hc1 : (!scheme.isEmpty) = true := by
    cases scheme with
    | nil => exact absurd rfl hs1
    | cons a t => rfl
  have hc2 : decide (scheme.length < (scheme ++ ':' :: R).length) = true := by
    rw [decide_eq_true_iff]
    simp
  have hc3 : (scheme ++ ':' :: R).head?.elim false Char.isAlpha = true := by
    cases scheme with
    | nil => exact absurd rfl hs1
    | cons a t =>
      simpa using (lowercaseAscii_facts a (hs2 a (List.mem_cons_self a t))).2.1
  have hc4 : scheme.all schemeChar = true :=
    List.all_eq_true.mpr (fun c hc => (lowercaseAscii_facts c (hs2 c hc)).2.2.1)
  have hdrop : (scheme ++ ':' :: R).drop (scheme.length + 1) = R := by
    have hsplit : scheme ++ ':' :: R = (scheme ++ [':']) ++ R := by simp
    have hlen : scheme.length + 1 = (scheme ++ [':']).length := by simp
    rw [hsplit, hlen, List.drop_left]
  simp only [splitSchemePart]
  rw [ht, if_pos (by rw [hc1, hc2, hc3, hc4]; rfl)]
  rw [map_toLower_eq_self hs2, hdrop]

theorem urlparse_wf (scheme netloc path query : List Char)
    (hs1 : scheme ≠ []) (hs2 : ∀ c ∈ scheme, c ∈ lowercaseAscii)
    (hn : ∀ c ∈ netloc, netlocChar c = true)
    (hp : path = [] ∨ ∃ t, path = '/' :: t)
    (hp2 : '?' ∉ path) (hp3 : '#' ∉ path) (hq2 : '#' ∉ query) :
    urlparse (scheme ++ ':' :: '/' :: '/' :: (netloc ++ (path ++ '?' :: query))) =
      ⟨scheme, netloc, path, query, []⟩ := by
  have h1 : splitSchemePart
      (scheme ++ ':' :: ('/' :: '/' :: (netloc ++ (path ++ '?' :: query)))) =
      (scheme, '/' :: '/' :: (netloc ++ (path ++ '?' :: query))) :=
    splitSchemePart_split hs1 hs2
  have h2 : splitNetlocPart ('/' :: '/' :: (netloc ++ (path ++ '?' :: query))) =
      (netloc, path ++ '?' :: query) := by
    rcases hp with hnil | ⟨t, hcons⟩
    · subst hnil
      exact splitNetlocPart_split hn (by decide)
    · subst hcons
      exact splitNetlocPart_split hn (by decide)
  have h3 : splitAtFirst '#' (path ++ '?' :: query) = (path ++ '?' :: query, []) := by
    apply splitAtFirst_not_mem
    intro hmem
    rcases List.mem_append.mp hmem with hmem | hmem
    · exact hp3 hmem
    · rcases List.mem_cons.mp hmem with hmem | hmem
      · exact absurd hmem (by decide)
      · exact hq2 hmem
  have h4 : splitAtFirst '?' (path ++ '?' :: query) = (path, query) :=
    splitAtFirst_split hp2
  simp only [urlparse, h1, h2, h3, h4]

theorem geturl_rebuild (scheme netloc path query : List Char)
    (hs1 : scheme ≠ []) (hn1 : netloc ≠ [])
    (hp : path = [] ∨ ∃ t, path = '/' :: t) (hq1 : query ≠ []) :
    geturl ⟨scheme, netloc, path, query, []⟩ =
      scheme ++ ':' :: '/' :: '/' :: (netloc ++ (path ++ '?' :: query)) := by
  simp only [geturl]
  rw [if_pos (Or.inl hn1)]
  have hinner : (if path ≠ [] ∧ path.take 1 ≠ ['/'] then '/' :: path else path) = path := by
    rcases hp with hnil | ⟨t, hcons⟩
    · subst hnil
      rw [if_neg]
      intro hcontra
      exact hcontra.1 rfl
    · subst hcons
      rw [if_neg]
      intro hcontra
      exact hcontra.2 rfl
  rw [hinner, if_pos hs1, if_pos hq1, if_neg (by intro hcontra; exact hcontra rfl)]
  simp [List.append_assoc]

/-- **C7**: for a well-formed remote server URL
`scheme://netloc/path?query` (lower-case scheme, netloc free of `/ ? #`,
absolute or empty path free of `? #`, nonempty query free of `#`) and any
local port `p`, the URL handed to the browser is identical to the remote URL
except that the network location is replaced by `localhost:p`: the scheme,
path and query (token included) are preserved verbatim. -/
theorem c7_open_local_url (scheme netloc path query : List Char) (p : Nat)
    (hs1 : scheme ≠ []) (hs2 : ∀ c ∈ scheme, c ∈ lowercaseAscii)
    (hn : ∀ c ∈ netloc, netlocChar c = true)
    (hp : path = [] ∨ ∃ t, path = '/' :: t)
    (hp2 : '?' ∉ path) (hp3 : '#' ∉ path)
    (hq1 : query ≠ []) (hq2 : '#' ∉ query) :
    urlparse (scheme ++ ':' :: '/' :: '/' :: (netloc ++ (path ++ '?' :: query))) =
        ⟨scheme, netloc, path, query, []⟩ ∧
      openLocalUrl (scheme ++ ':' :: '/' :: '/' :: (netloc ++ (path ++ '?' :: query))) p =
        scheme ++ ':' :: '/' :: '/' :: (localNetloc p ++ (path ++ '?' :: query)) := by
  have hparse := urlparse_wf scheme netloc path query hs1 hs2 hn hp hp2 hp3 hq2
  have hln : localNetloc p ≠ [] := by
    unfold localNetloc
    intro hcontra
    rw [List.append_eq_nil] at hcontra
    exact absurd hcontra.1 (by decide)
  refine ⟨hparse, ?_⟩
  simp only [openLocalUrl, hparse]
  exact geturl_rebuild scheme (localNetloc p) path query hs1 hln hp hq1

/-- **C7** (witness): remote URL `http://127.0.0.1:8888/lab?token=abc` with
local port `54321` is rewritten to `http://localhost:54321/lab?token=abc`. -/
theorem c7_open_local_url_witness :
    openLocalUrl "http://127.0.0.1:8888/lab?token=abc".data 54321 =
      "http://localhost:54321/lab?token=abc".data := by
  have h := c7_open_local_url "http".data "127.0.0.1:8888".data "/lab".data
    "token=abc".data 54321 (by decide) (by decide) (by decide)
    (Or.inr ⟨"lab".data, by decide⟩) (by decide) (by decide) (by decide) (by decide)
  exact h.2.trans (by decide)
